import Mathlib

/-!
Verification of the estimators in `drone_proj3/drone_estimator.py`.

The Python module implements three estimators for a planar quadrotor whose
state is the 6-vector (x, z, phi, vx, vz, omega): an oracle observer, a
dead-reckoning estimator (`DeadReckoning.update`), and an extended Kalman
filter (`ExtendedKalmanFilter.update` with helpers `g`, `h`, `approx_A`,
`approx_C`).  Numerical float code is embedded over the exact reals `ℝ`;
numpy operations that can raise (`np.linalg.inv` on a singular matrix,
elementwise subtraction of arrays of incompatible shapes, list indexing)
are modelled with `Option` / explicit error results.

Per the module's own comment the recorded data is an `(N, 12)` array:
time (1), true state (6), input (2), observation (3); `run` slices each
row into `t`, `x`, `u = data[7:9]`, `y = data[9:12]`, so every stored
measurement record `y[i]` is a 3-element vector (first component
unused/reserved, then range, then bearing).
-/

noncomputable section

open Matrix

abbrev Vec6 : Type := Fin 6 → ℝ
abbrev Vec2 : Type := Fin 2 → ℝ
abbrev Mat6 : Type := Matrix (Fin 6) (Fin 6) ℝ
abbrev Mat26 : Type := Matrix (Fin 2) (Fin 6) ℝ
abbrev Mat2 : Type := Matrix (Fin 2) (Fin 2) ℝ

/-- `self.m = 0.92` (mass), set in `Estimator.__init__`. -/
def mconst : ℝ := 0.92

/-- `self.J = 0.0023` (moment of inertia), set in `Estimator.__init__`. -/
def Jconst : ℝ := 0.0023

/-- `scipy.constants.g = 9.80665`, the gravitational constant actually used by
both `DeadReckoning.update` and `ExtendedKalmanFilter.g` (as `constants.g`). -/
def gconst : ℝ := 9.80665

/-- `self.gr = 9.81`, the instance attribute set in `Estimator.__init__`;
never read by either estimator's dynamics. -/
def grAttr : ℝ := 9.81

/-- Landmark coordinates `self.landmark = (0, 5, 5)`, unpacked by the EKF as
`self.lx, self.ly, self.lz`. -/
def lxconst : ℝ := 0

/-- Landmark y-coordinate. -/
def lyconst : ℝ := 5

/-- Landmark z-coordinate. -/
def lzconst : ℝ := 5

/-- `ExtendedKalmanFilter.g(x, u)`: Euler step of the nonlinear drone model,
`new_x = x + np.array([dv, dz, dphi, ddv, ddz, ddphi]) * dt` with
`ddv = (-u_1*sin(phi))/m`, `ddz = -constants.g + (u_1*cos(phi))/m`,
`ddphi = u_2/J`.  `dt` is `self.dt`, kept as an explicit parameter. -/
def g (dt : ℝ) (x : Vec6) (u : Vec2) : Vec6 :=
  x + dt • ![x 3, x 4, x 5,
             (-(u 0) * Real.sin (x 2)) / mconst,
             -gconst + (u 0 * Real.cos (x 2)) / mconst,
             u 1 / Jconst]

/-- The per-step propagation inlined in `DeadReckoning.update` (lines
219-227): `term0..term5` from `self.old_x` and `u_1, u_2`, then
`new_x = self.old_x + np.array([term0, ..., term5]) * self.dt`. -/
def drStep (dt : ℝ) (old_x : Vec6) (u : Vec2) : Vec6 :=
  old_x + dt • ![old_x 3, old_x 4, old_x 5,
                 (-(u 0) * Real.sin (old_x 2)) / mconst,
                 -gconst + (u 0 * Real.cos (old_x 2)) / mconst,
                 u 1 / Jconst]

/-- numpy elementwise subtraction `a - b` of two 1-d arrays, as used in
`ExtendedKalmanFilter.h`.  Defined exactly when the shapes broadcast; the two
operands in `h` have lengths `len(y_obs)` and 2, so length-1 scalar
broadcasting never arises and the operation succeeds iff the lengths agree,
otherwise numpy raises `ValueError`. -/
def npSub (a b : List ℝ) : Option (List ℝ) :=
  if a.length = b.length then some (List.zipWith (fun p q => p - q) a b) else none

/-- `ExtendedKalmanFilter.h(x_hat, y_obs)`: predicted measurement
`[dist, phi]` with `dist = ((lx - x)**2 + ly**2 + (lz - z)**2)**0.5`
(the argument is `≥ 25 > 0`, so `**0.5` is `Real.sqrt`), returned as
`y_obs - h_x_hat`, i.e. the innovation. -/
def hResid (x_hat : Vec6) (y_obs : List ℝ) : Option (List ℝ) :=
  npSub y_obs
    [Real.sqrt ((lxconst - x_hat 0) ^ 2 + lyconst ^ 2 + (lzconst - x_hat 1) ^ 2),
     x_hat 2]

/-- `ExtendedKalmanFilter.approx_A(x, u)`: `dg = np.eye(6)` with
`dg[0,3] = dg[1,4] = dg[2,5] = dt`,
`dg[3,2] = -(u_1*cos(phi)*dphi*dt)/m`, `dg[4,2] = -(u_1*sin(phi)*dphi*dt)/m`
where `phi = x[2]`, `dphi = x[5]`. -/
def approx_A (dt : ℝ) (x : Vec6) (u : Vec2) : Mat6 :=
  !![1, 0, 0, dt, 0, 0;
     0, 1, 0, 0, dt, 0;
     0, 0, 1, 0, 0, dt;
     0, 0, -(u 0 * Real.cos (x 2) * x 5 * dt) / mconst, 1, 0, 0;
     0, 0, -(u 0 * Real.sin (x 2) * x 5 * dt) / mconst, 0, 1, 0;
     0, 0, 0, 0, 0, 1]

/-- `ExtendedKalmanFilter.approx_C(x)`: the 2x6 measurement Jacobian with
`dh_dx[0,0] = -(lx - x)/dist`, `dh_dx[0,1] = -(lz - z)/dist`,
`dh_dx[1,2] = 1` and zeros elsewhere. -/
def approx_C (x : Vec6) : Mat26 :=
  !![-(lxconst - x 0) /
       Real.sqrt ((lxconst - x 0) ^ 2 + lyconst ^ 2 + (lzconst - x 1) ^ 2),
     -(lzconst - x 1) /
       Real.sqrt ((lxconst - x 0) ^ 2 + lyconst ^ 2 + (lzconst - x 1) ^ 2),
     0, 0, 0, 0;
     0, 0, 1, 0, 0, 0]

/-- `self.Q = np.diag([1, 1, 1, 0.1, 0.1, 0.1])`. -/
def Qmat : Mat6 := Matrix.diagonal ![1, 1, 1, 0.1, 0.1, 0.1]

/-- `self.R = np.diag([30, 10])`. -/
def Rmat : Mat2 := Matrix.diagonal ![30, 10]

/-- `self.P = np.diag([5, 5, 5, 1, 1, 1])`, the initial covariance. -/
def P0mat : Mat6 := Matrix.diagonal ![5, 5, 5, 1, 1, 1]

/-- `np.linalg.inv` on a square matrix, in exact arithmetic: raises
`LinAlgError` (modelled as `none`) iff the matrix is singular, and otherwise
returns the exact inverse.  No condition-number or determinant-threshold
check of any kind is performed. -/
def npLinalgInv {n : ℕ} (S : Matrix (Fin n) (Fin n) ℝ) :
    Option (Matrix (Fin n) (Fin n) ℝ) :=
  if S.det = 0 then none else some S⁻¹

/-- numpy `K @ v` for `K` of shape `(6, 2)` and a 1-d array `v`: defined iff
`v` has length 2, otherwise numpy raises `ValueError`. -/
def npMatVec (K : Matrix (Fin 6) (Fin 2) ℝ) (v : List ℝ) : Option Vec6 :=
  if v.length = 2 then some (K.mulVec fun j => v.getD j 0) else none

/-- Predicted covariance `P = self.A @ self.P @ self.A.T + self.Q` computed at
line 289 of `ExtendedKalmanFilter.update`, with `self.A = approx_A(old_x, u)`
from line 288. -/
def ekfPbar (dt : ℝ) (x0 : Vec6) (P : Mat6) (u : Vec2) : Mat6 :=
  approx_A dt x0 u * P * (approx_A dt x0 u)ᵀ + Qmat

/-- Innovation covariance `self.C @ P @ self.C.T + self.R` from line 291,
with `self.C = approx_C(conditional_x)` and `conditional_x = g(old_x, u)`. -/
def ekfS (dt : ℝ) (x0 : Vec6) (P : Mat6) (u : Vec2) : Mat2 :=
  approx_C (g dt x0 u) * ekfPbar dt x0 P u * (approx_C (g dt x0 u))ᵀ + Rmat

/-- Kalman gain `K = P @ self.C.T @ np.linalg.inv(...)` from line 291
(written with the exact inverse; `ekfUpdate` reaches it only when
`np.linalg.inv` succeeds, i.e. `det ≠ 0`, where the two agree). -/
def ekfK (dt : ℝ) (x0 : Vec6) (P : Mat6) (u : Vec2) : Matrix (Fin 6) (Fin 2) ℝ :=
  ekfPbar dt x0 P u * (approx_C (g dt x0 u))ᵀ * (ekfS dt x0 P u)⁻¹

/-- Corrected covariance `self.P = (np.eye(6) - K @ self.C) @ P` from
line 293. -/
def ekfNewP (dt : ℝ) (x0 : Vec6) (P : Mat6) (u : Vec2) : Mat6 :=
  (1 - ekfK dt x0 P u * approx_C (g dt x0 u)) * ekfPbar dt x0 P u

/-- The mutable attributes of an `ExtendedKalmanFilter` instance that its
`update` method reads or writes, plus the recorded `u` and `y` lists kept on
the object by `run` (`self.x` and the timing/printing diagnostics are read
only for console output and never influence the estimate). -/
structure EKFState where
  u : List Vec2
  y : List (List ℝ)
  x_hat : List Vec6
  old_x : Vec6
  P : Mat6
  A : Mat6
  C : Mat26

/-- Outcome of one Python call to `ExtendedKalmanFilter.update`: `ok` is a
normal return, `err` an uncaught exception; in both cases the carried state
is the object's attribute state afterwards (mutations made before an
exception persist). -/
inductive EKFResult where
  | ok (s : EKFState)
  | err (s : EKFState)

/-- Object state carried by an `EKFResult`. -/
def EKFResult.state : EKFResult → EKFState
  | .ok s => s
  | .err s => s

/-- Whether the call raised. -/
def EKFResult.isErr : EKFResult → Bool
  | .ok _ => false
  | .err _ => true

/-- `ExtendedKalmanFilter.update(i)`, lines 280-295.  Guard: body runs only
when `len(self.x_hat) > 0`.  Then, in source order: `old_x = x_hat[0]` when
`i == 1`; `u = self.u[i-1]` (IndexError if absent);
`conditional_x = self.g(old_x, u)`; `self.A = approx_A(old_x, u)`;
`P = A @ self.P @ A.T + Q`; `self.C = approx_C(conditional_x)`;
`K = P @ C.T @ np.linalg.inv(C @ P @ C.T + R)` (LinAlgError if singular);
`new_x = conditional_x + K @ h(conditional_x, self.y[i])` (IndexError if
`y[i]` absent, ValueError if the innovation shapes do not broadcast);
`self.P = (eye(6) - K @ C) @ P`; append `new_x`; `self.old_x = new_x`. -/
def ekfUpdate (dt : ℝ) (s : EKFState) (i : ℕ) : EKFResult :=
  if 0 < s.x_hat.length then
    let old0 := if i = 1 then s.x_hat.headD 0 else s.old_x
    let s0 : EKFState := { s with old_x := old0 }
    match s.u.get? (i - 1) with
    | none => .err s0
    | some u =>
      let xbar := g dt old0 u
      let s1 : EKFState := { s0 with A := approx_A dt old0 u, C := approx_C xbar }
      match npLinalgInv (ekfS dt old0 s.P u) with
      | none => .err s1
      | some Sinv =>
        let K := ekfPbar dt old0 s.P u * (approx_C xbar)ᵀ * Sinv
        match s.y.get? i with
        | none => .err s1
        | some yr =>
          match hResid xbar yr with
          | none => .err s1
          | some innov =>
            match npMatVec K innov with
            | none => .err s1
            | some kv =>
              .ok { s1 with P := (1 - K * approx_C xbar) * ekfPbar dt old0 s.P u,
                            x_hat := s.x_hat ++ [xbar + kv],
                            old_x := xbar + kv }
  else .ok s

/-- The mutable attributes of a `DeadReckoning` instance that its `update`
method reads or writes, plus the recorded lists kept on the object by `run`
(`self.x` beyond index 0 and `self.t` feed only the console diagnostics). -/
structure DRState where
  t : List ℝ
  x : List Vec6
  u : List Vec2
  y : List (List ℝ)
  x_hat : List Vec6
  time_step : ℕ
  old_x : Vec6

/-- Outcome of one call to `DeadReckoning.update`, as for `EKFResult`. -/
inductive DRResult where
  | ok (s : DRState)
  | err (s : DRState)

/-- Object state carried by a `DRResult`. -/
def DRResult.state : DRResult → DRState
  | .ok s => s
  | .err s => s

/-- `DeadReckoning.update`, lines 213-230.  Guard: body runs only when
`len(self.x_hat) > 0 and len(self.u) > self.time_step`.  Then
`self.old_x = self.x[0]` when `time_step == 0` (IndexError if `self.x` is
empty), one `drStep` with `self.u[self.time_step]`, append the new state to
`x_hat`, remember it in `old_x`, and increment `time_step`.  The measurement
list `self.y` is never read. -/
def drUpdate (dt : ℝ) (s : DRState) : DRResult :=
  if 0 < s.x_hat.length ∧ s.time_step < s.u.length then
    match (if s.time_step = 0 then s.x.get? 0 else some s.old_x) with
    | none => .err s
    | some old0 =>
      let newx := drStep dt old0 (s.u.getD s.time_step 0)
      .ok { s with x_hat := s.x_hat ++ [newx], old_x := newx,
                   time_step := s.time_step + 1 }
  else .ok s

/-- One recorded data row, as sliced by `Estimator.run`:
`t = data[0]`, `x = data[1:7]`, `u = data[7:9]`, `y = data[9:12]`. -/
structure Record where
  t : ℝ
  x : Vec6
  u : Vec2
  y : List ℝ

/-- The per-record bookkeeping of `Estimator.run`: append the row's slices
to `self.t`, `self.x`, `self.u`, `self.y`. -/
def drAppendRecord (s : DRState) (r : Record) : DRState :=
  { s with t := s.t ++ [r.t], x := s.x ++ [r.x],
           u := s.u ++ [r.u], y := s.y ++ [r.y] }

/-- The loop body of `Estimator.run` for `DeadReckoning`, iterated over the
records: append the row's slices to `self.t/x/u/y`, then seed
`x_hat.append(x[-1])` when `i == 0`, else call `update(i)` (an exception
aborts the run). -/
def drRunAux (dt : ℝ) (s : DRState) (i : ℕ) : List Record → DRResult
  | [] => .ok s
  | r :: rs =>
    let s' : DRState := drAppendRecord s r
    if i = 0 then
      drRunAux dt { s' with x_hat := s'.x_hat ++ [r.x] } (i + 1) rs
    else
      match drUpdate dt s' with
      | .ok s2 => drRunAux dt s2 (i + 1) rs
      | .err s2 => .err s2

/-- Fresh `DeadReckoning` object state: all lists empty, `time_step = 0`;
`old_x` is `None` in Python and is modelled by an arbitrary vector, since
every read of it is preceded by an assignment. -/
def drInit : DRState :=
  { t := [], x := [], u := [], y := [], x_hat := [], time_step := 0, old_x := 0 }

/-- `DeadReckoning.run()` over a recorded sequence. -/
def drRun (dt : ℝ) (records : List Record) : DRResult :=
  drRunAux dt drInit 0 records

/-- Fresh `ExtendedKalmanFilter` object state right after `__init__`:
`x_hat` and the data lists empty, `old_x = None` (modelled by an arbitrary
vector, never read before assignment), `A = np.eye(6)`, `P` the initial
diagonal covariance; `self.C` does not exist yet and is modelled by `0`. -/
def ekfInitEmpty : EKFState :=
  { u := [], y := [], x_hat := [], old_x := 0, P := P0mat, A := 1, C := 0 }

/-- Predicted state whose (x, z) position is exactly (0, 5); used as a
concrete evaluation point (range to the landmark is then `sqrt 25 = 5`). -/
def xzSimple : Vec6 := ![0, 5, 0, 0, 0, 0]

/-- The all-zero data record: zero time stamp, zero true state (in particular
zero velocities and zero angular rate), zero input (no thrust, no torque),
arbitrary 3-element measurement. -/
def recZero : Record := { t := 0, x := 0, u := 0, y := [0, 0, 0] }

/-- The hover input: thrust `m*g` exactly cancelling gravity, zero torque. -/
def hoverInput : Vec2 := ![mconst * gconst, 0]

/-- The all-zero-state hover record used by the C7 witness. -/
def recHover : Record := { t := 0, x := 0, u := hoverInput, y := [0, 0, 0] }

/-- Linearization point used by the C5 counter-demonstration: heading
`phi = 0`, angular rate `omega = 2`, all other components zero. -/
def xC5 : Vec6 := ![0, 0, 0, 0, 0, 2]

/-- Input used by the C5 counter-demonstration: unit thrust, zero torque. -/
def uC5 : Vec2 := ![1, 0]

/-- A small EKF state (one seeded estimate, one recorded input) used as the
C3 witness point. -/
def sC3 : EKFState :=
  { u := [0], y := [], x_hat := [0], old_x := 0, P := 0, A := 1, C := 0 }

/-- Agreement of two `DeadReckoning` object states on every attribute the
`update` method reads or writes — everything except the measurement list. -/
def drAgree (s1 s2 : DRState) : Prop :=
  s1.t = s2.t ∧ s1.x = s2.x ∧ s1.u = s2.u ∧ s1.x_hat = s2.x_hat
    ∧ s1.time_step = s2.time_step ∧ s1.old_x = s2.old_x

/-- Lifting of `drAgree` to update/run results: same outcome (normal return
or exception) with agreeing states. -/
def drResAgree : DRResult → DRResult → Prop
  | .ok s1, .ok s2 => drAgree s1 s2
  | .err s1, .err s2 => drAgree s1 s2
  | _, _ => False

/-- A record agreeing with `recZero` except for its measurement slice. -/
def recYdiff : Record := { t := 0, x := 0, u := 0, y := [9, 9, 9] }

/-- EKF object state at step 1 of a run over the documented `(N,12)` records:
one seeded estimate (position (0,5), at rest), the step-0 input, and the two
3-element stored measurement records `y[0]`, `y[1]`. -/
def sC1 : EKFState :=
  { u := [0], y := [[0, 0, 0], [0, 5, 0]], x_hat := [xzSimple],
    old_x := 0, P := 0, A := 1, C := 0 }

section Claims

/-- C10: the per-step propagation inlined in `DeadReckoning.update` and the
EKF's `g` compute the same function: previous state plus
`dt * (vx, vz, omega, -u1*sin(phi)/m, -g + u1*cos(phi)/m, u2/J)`, with the
same constants `m = 0.92`, `J = 0.0023`, and the same gravitational constant
`scipy.constants.g = 9.80665` — not the instance attribute `gr = 9.81`. -/
theorem drStep_eq_ekf_g :
    (∀ (dt : ℝ) (x : Vec6) (u : Vec2), drStep dt x u = g dt x u)
    ∧ (∀ (dt : ℝ) (x : Vec6) (u : Vec2),
        g dt x u = x + dt • ![x 3, x 4, x 5,
          (-(u 0) * Real.sin (x 2)) / mconst,
          -gconst + (u 0 * Real.cos (x 2)) / mconst,
          u 1 / Jconst])
    ∧ mconst = 0.92 ∧ Jconst = 0.0023 ∧ gconst = 9.80665 ∧ gconst ≠ grAttr :=
  ⟨fun _ _ _ => rfl, fun _ _ _ => rfl, rfl, rfl, rfl, by norm_num [gconst, grAttr]⟩

/-- Witness for C10 at a concrete point: at `dt = 1` the two propagation
functions agree on the zero state and input, and the two gravitational
constants really differ. -/
theorem drStep_eq_ekf_g_check :
    drStep 1 0 0 = g 1 0 0 ∧ gconst ≠ grAttr :=
  ⟨drStep_eq_ekf_g.1 1 0 0, drStep_eq_ekf_g.2.2.2.2.2⟩

/-- C8: calling `update` with no prior estimate (empty `x_hat`) — or, for
dead reckoning, with no unconsumed input — is a no-op: the object state is
returned unchanged (same estimate sequence, covariance, step counter) and no
exception is raised. -/
theorem update_noop_without_prior_estimate :
    (∀ (dt : ℝ) (s : DRState),
        s.x_hat = [] ∨ s.u.length ≤ s.time_step → drUpdate dt s = DRResult.ok s)
    ∧ (∀ (dt : ℝ) (s : EKFState) (i : ℕ),
        s.x_hat = [] → ekfUpdate dt s i = EKFResult.ok s) := by
  constructor
  · intro dt s hs
    unfold drUpdate
    rw [if_neg]
    rintro ⟨h1, h2⟩
    rcases hs with hs | hs
    · rw [hs] at h1; simp at h1
    · omega
  · intro dt s i hs
    unfold ekfUpdate
    rw [if_neg]
    rw [hs]
    simp

/-- Witness for C8 at concrete fresh estimator states. -/
theorem update_noop_without_prior_estimate_check :
    drUpdate 1 drInit = DRResult.ok drInit
    ∧ ekfUpdate 1 ekfInitEmpty 1 = EKFResult.ok ekfInitEmpty :=
  ⟨update_noop_without_prior_estimate.1 1 drInit (Or.inl rfl),
   update_noop_without_prior_estimate.2 1 ekfInitEmpty 1 rfl⟩


/-- C2 (code bug): `h` forms `y_obs - h_x_hat` where `h_x_hat` is the
2-element predicted measurement `[range, bearing]`; on a stored 3-element
measurement record (the `(N,12)` data layout gives `y[i] = data[9:12]`) the
shapes `(3,)` and `(2,)` do not broadcast and numpy raises `ValueError`
(modelled as `none`), so the claimed subtraction is *not* well-defined.
On a 2-element `(range, bearing)` pair the subtraction does compute
`y - [dist, phi]` exactly as described (second conjunct: range from
position (0,5) through the landmark's y-offset is 5, bearing is phi = 0,
so `[7, 2] - [5, 0] = [2, 2]`). -/
theorem h_innovation_dimension_mismatch :
    hResid xzSimple [0, 5, 0] = none
    ∧ hResid xzSimple [7, 2] = some [2, 2] := by
  constructor
  · rfl
  · have h25 : Real.sqrt 25 = 5 := by
      rw [show (25 : ℝ) = 5 ^ 2 by norm_num, Real.sqrt_sq]
      norm_num
    simp [hResid, npSub, xzSimple, Matrix.cons_val_succ]
    norm_num [lxconst, lyconst, lzconst, h25]

/-- C6 (amended): the update performs no near-singularity detection of the
innovation covariance `S`: it is passed straight to `np.linalg.inv`, which
raises (`none`) exactly when `S` is singular in exact arithmetic, and for any
`S` with nonzero determinant — however small — returns the inverse, after
which the step simply continues. -/
theorem npLinalgInv_errors_iff_exactly_singular :
    ∀ S : Mat2, (npLinalgInv S = none ↔ S.det = 0)
      ∧ (S.det ≠ 0 → npLinalgInv S = some S⁻¹) := by
  intro S
  constructor
  · unfold npLinalgInv
    split_ifs with hdet
    · simp [hdet]
    · simp [hdet]
  · intro hdet
    unfold npLinalgInv
    rw [if_neg hdet]

/-- Witness for C6's amended claim: a near-singular (determinant `10⁻²⁰`)
innovation covariance is inverted without any error. -/
theorem npLinalgInv_errors_iff_exactly_singular_check :
    npLinalgInv !![(1 : ℝ)/10^20, 0; 0, 1] = some (!![(1 : ℝ)/10^20, 0; 0, 1])⁻¹ :=
  (npLinalgInv_errors_iff_exactly_singular _).2 (by norm_num [Matrix.det_fin_two_of])

/-- Counterexample for C6 as stated: this innovation covariance is
near-singular (determinant `10⁻²⁰`, far below any reasonable threshold such
as `10⁻⁶`), yet the code's inversion `np.linalg.inv` succeeds — no distinct,
named error is surfaced and the update continues with the computed gain. -/
theorem near_singular_S_not_detected :
    (!![(1 : ℝ)/10^20, 0; 0, 1]).det = 1/10^20
    ∧ (1 : ℝ)/10^20 < 1/10^6
    ∧ (npLinalgInv !![(1 : ℝ)/10^20, 0; 0, 1]).isSome = true := by
  refine ⟨by norm_num [Matrix.det_fin_two_of], by norm_num, ?_⟩
  unfold npLinalgInv
  rw [if_neg (by norm_num [Matrix.det_fin_two_of])]
  rfl


/-- Counterexample for C7 as stated: running dead reckoning on records with
all-zero inputs from the all-zero initial state (zero velocities and angular
rate), the very first propagated estimate is *not* the initial state: its
z-velocity component is `-g*dt = -9.80665/100 ≠ 0`, because gravity acts even
with zero thrust. -/
theorem dr_zero_input_gravity_drift :
    (drRun (1/100) [recZero, recZero]).state.x_hat.getD 1 0 ≠ recZero.x
    ∧ ((drRun (1/100) [recZero, recZero]).state.x_hat.getD 1 0) 4
        = -(gconst / 100) := by
  have hrun : (drRun (1/100) [recZero, recZero]).state.x_hat
      = [recZero.x, drStep (1/100) 0 0] := by
    simp [drRun, drRunAux, drAppendRecord, drUpdate, drInit, recZero, DRResult.state]
  have hget : (drRun (1/100) [recZero, recZero]).state.x_hat.getD 1 0
      = drStep (1/100) 0 0 := by
    rw [hrun]
    rfl
  have hstep : drStep (1/100) 0 0 4 = -(gconst / 100) := by
    simp [drStep, Matrix.cons_val_succ]
    ring
  constructor
  · intro hcontra
    rw [hget] at hcontra
    have h4 := congrFun hcontra 4
    rw [hstep] at h4
    have hrx : recZero.x 4 = (0 : ℝ) := rfl
    rw [hrx] at h4
    norm_num [gconst] at h4
  · rw [hget]
    exact hstep


lemma drStep_hover_fixed (dt : ℝ) (x0 : Vec6) (h2 : x0 2 = 0) (h3 : x0 3 = 0)
    (h4 : x0 4 = 0) (h5 : x0 5 = 0) : drStep dt x0 hoverInput = x0 := by
  have hm : mconst ≠ 0 := by norm_num [mconst]
  funext i
  fin_cases i
  · show x0 0 + dt * x0 3 = x0 0
    rw [h3]; ring
  · show x0 1 + dt * x0 4 = x0 1
    rw [h4]; ring
  · show x0 2 + dt * x0 5 = x0 2
    rw [h5]; ring
  · show x0 3 + dt * ((-(hoverInput 0) * Real.sin (x0 2)) / mconst) = x0 3
    rw [h2, Real.sin_zero]; ring
  · show x0 4 + dt * (-gconst + (hoverInput 0 * Real.cos (x0 2)) / mconst) = x0 4
    rw [h2, Real.cos_zero, show hoverInput 0 = mconst * gconst from rfl, mul_one,
      mul_div_cancel_left₀ _ hm]
    ring
  · show x0 5 + dt * (hoverInput 1 / Jconst) = x0 5
    rw [show hoverInput 1 = 0 from rfl]
    ring

lemma drUpdate_hover (dt : ℝ) (x0 : Vec6) (h2 : x0 2 = 0) (h3 : x0 3 = 0)
    (h4 : x0 4 = 0) (h5 : x0 5 = 0) (s : DRState) (hxne : s.x ≠ [])
    (hsx : ∀ e ∈ s.x, e = x0) (hsu : ∀ uu ∈ s.u, uu = hoverInput)
    (hsxh : ∀ e ∈ s.x_hat, e = x0) (hold : s.time_step = 0 ∨ s.old_x = x0) :
    ∃ s2, drUpdate dt s = DRResult.ok s2 ∧ s2.x = s.x
      ∧ s2.u = s.u ∧ (∀ e ∈ s2.x_hat, e = x0)
      ∧ (s2.time_step = 0 ∨ s2.old_x = x0) := by
  unfold drUpdate
  split_ifs with hguard hts
  · -- guard passes and time_step = 0: old_x is read from x[0]
    have huk : s.u.getD s.time_step 0 = hoverInput := by
      obtain ⟨uu, huu⟩ : ∃ uu, s.u.get? s.time_step = some uu :=
        ⟨_, List.get?_eq_get hguard.2⟩
      rw [List.getD_eq_getD_get?, huu]
      exact hsu uu (List.get?_mem huu)
    obtain ⟨e, he⟩ : ∃ e, s.x.get? 0 = some e :=
      ⟨_, List.get?_eq_get (List.length_pos.mpr hxne)⟩
    have hex0 : e = x0 := hsx e (List.get?_mem he)
    rw [he]
    refine ⟨_, rfl, rfl, rfl, ?_, Or.inr ?_⟩
    · intro e2 he2
      rcases List.mem_append.mp he2 with h | h
      · exact hsxh e2 h
      · rw [List.mem_singleton.mp h, huk, hex0,
          drStep_hover_fixed dt x0 h2 h3 h4 h5]
    · show drStep dt e (s.u.getD s.time_step 0) = x0
      rw [huk, hex0, drStep_hover_fixed dt x0 h2 h3 h4 h5]
  · -- guard passes and time_step > 0: old_x is the running estimate
    have huk : s.u.getD s.time_step 0 = hoverInput := by
      obtain ⟨uu, huu⟩ : ∃ uu, s.u.get? s.time_step = some uu :=
        ⟨_, List.get?_eq_get hguard.2⟩
      rw [List.getD_eq_getD_get?, huu]
      exact hsu uu (List.get?_mem huu)
    have hox : s.old_x = x0 := by
      rcases hold with h | h
      · exact absurd h hts
      · exact h
    refine ⟨_, rfl, rfl, rfl, ?_, Or.inr ?_⟩
    · intro e2 he2
      rcases List.mem_append.mp he2 with h | h
      · exact hsxh e2 h
      · rw [List.mem_singleton.mp h, huk, hox,
          drStep_hover_fixed dt x0 h2 h3 h4 h5]
    · show drStep dt s.old_x (s.u.getD s.time_step 0) = x0
      rw [huk, hox, drStep_hover_fixed dt x0 h2 h3 h4 h5]
  · exact ⟨s, rfl, rfl, rfl, hsxh, hold⟩

lemma drRunAux_hover (dt : ℝ) (x0 : Vec6) (h2 : x0 2 = 0) (h3 : x0 3 = 0)
    (h4 : x0 4 = 0) (h5 : x0 5 = 0) :
    ∀ (rs : List Record) (i : ℕ) (s : DRState),
      (∀ r ∈ rs, r.u = hoverInput) → (∀ r ∈ rs, r.x = x0) →
      (∀ e ∈ s.x, e = x0) → (∀ uu ∈ s.u, uu = hoverInput) →
      (∀ e ∈ s.x_hat, e = x0) → (s.time_step = 0 ∨ s.old_x = x0) →
      ∀ e ∈ (drRunAux dt s i rs).state.x_hat, e = x0 := by
  intro rs
  induction rs with
  | nil =>
    intro i s _ _ _ _ hsxh _
    simpa [drRunAux, DRResult.state] using hsxh
  | cons r rs ih =>
    intro i s hru hrx hsx hsu hsxh hold
    have hrx0 : r.x = x0 := hrx r (List.mem_cons_self r rs)
    have hru0 : r.u = hoverInput := hru r (List.mem_cons_self r rs)
    have hsx' : ∀ e ∈ s.x ++ [r.x], e = x0 := by
      intro e he
      rcases List.mem_append.mp he with h | h
      · exact hsx e h
      · rw [List.mem_singleton.mp h, hrx0]
    have hsu' : ∀ uu ∈ s.u ++ [r.u], uu = hoverInput := by
      intro uu huu
      rcases List.mem_append.mp huu with h | h
      · exact hsu uu h
      · rw [List.mem_singleton.mp h, hru0]
    rw [drRunAux]
    split_ifs with hi0
    · refine ih (i + 1) _ (fun a ha => hru a (List.mem_cons_of_mem r ha))
        (fun a ha => hrx a (List.mem_cons_of_mem r ha)) hsx' hsu' ?_ hold
      intro e he
      rcases List.mem_append.mp he with h | h
      · exact hsxh e h
      · rw [List.mem_singleton.mp h, hrx0]
    · obtain ⟨s2, hok, hs2x, hs2u, hs2xh, hs2old⟩ :=
        drUpdate_hover dt x0 h2 h3 h4 h5 (drAppendRecord s r)
          (fun hc => List.cons_ne_nil r.x [] (List.append_eq_nil.mp hc).2)
          hsx' hsu' hsxh hold
      rw [hok]
      refine ih (i + 1) s2 (fun a ha => hru a (List.mem_cons_of_mem r ha))
        (fun a ha => hrx a (List.mem_cons_of_mem r ha)) ?_ ?_ hs2xh hs2old
      · rw [hs2x]; exact hsx'
      · rw [hs2u]; exact hsu'

/-- C7 (amended): with zero thrust gravity still acts (see the
counterexample), so the no-drift property holds for the *hover* input
`u = (m*g, 0)` instead: for every recorded sequence whose inputs are all the
hover input and whose true states equal an initial state with heading
`phi = 0` and zero velocities and angular rate, every dead-reckoning estimate
produced by the run equals that initial state. -/
theorem dr_hover_keeps_initial_state :
    ∀ (dt : ℝ) (x0 : Vec6) (rs : List Record),
      x0 2 = 0 → x0 3 = 0 → x0 4 = 0 → x0 5 = 0 →
      (∀ r ∈ rs, r.u = hoverInput) → (∀ r ∈ rs, r.x = x0) →
      ∀ e ∈ (drRun dt rs).state.x_hat, e = x0 := by
  intro dt x0 rs h2 h3 h4 h5 hru hrx
  exact drRunAux_hover dt x0 h2 h3 h4 h5 rs 0 drInit hru hrx
    (by simp [drInit]) (by simp [drInit]) (by simp [drInit]) (Or.inl rfl)


/-- Witness for C7's amended claim: in a 3-step hover run from the origin
the first produced estimate is the origin (the default `1` is returned only
for an empty list, so this also certifies the estimate list is nonempty and
its head is the initial state). -/
theorem dr_hover_keeps_initial_state_check :
    (drRun (1/100) [recHover, recHover, recHover]).state.x_hat.getD 0 1 = (0 : Vec6) := by
  have hlen : 0 < (drRun (1/100) [recHover, recHover, recHover]).state.x_hat.length := by
    simp [drRun, drRunAux, drAppendRecord, drUpdate, drInit, recHover, DRResult.state]
  refine dr_hover_keeps_initial_state (1/100) 0 [recHover, recHover, recHover]
    rfl rfl rfl rfl ?_ ?_ _ ?_
  · intro r hr
    simp only [List.mem_cons, List.not_mem_nil, or_false] at hr
    rcases hr with h | h | h <;> rw [h] <;> rfl
  · intro r hr
    simp only [List.mem_cons, List.not_mem_nil, or_false] at hr
    rcases hr with h | h | h <;> rw [h] <;> rfl
  · rw [List.getD_eq_getD_get?, List.get?_eq_get hlen, Option.getD_some]
    exact List.get_mem _ 0 hlen



/-- C5 (code bug): at state `xC5` (phi = 0, omega = 2), input `uC5`
(u1 = 1) and `dt = 1/100`, the exact partial derivative of the propagation
`g` in its 4th component with respect to phi is `-dt*u1*cos(phi)/m = -1/92`
(first conjunct, an exact `HasDerivAt`), but `approx_A` returns
`-(u1*cos(phi)*omega*dt)/m = -1/46` for that entry — the spurious extra
factor `omega = x[5]` — and the two differ by `1/92 > 1e-4`, so the returned
matrix is not the matrix of first-order partials and a finite-difference
check at tolerance `1e-4` fails. -/
theorem approx_A_not_exact_jacobian :
    HasDerivAt (fun t : ℝ => g (1/100) (Function.update xC5 2 t) uC5 3) (-(1/92) : ℝ) 0
    ∧ approx_A (1/100) xC5 uC5 3 2 = (-(1/46) : ℝ)
    ∧ |(-(1/46) : ℝ) - (-(1/92) : ℝ)| > 1/10^4 := by
  refine ⟨?_, ?_, ?_⟩
  · have hfun : (fun t : ℝ => g (1/100) (Function.update xC5 2 t) uC5 3)
        = fun t : ℝ => (-(1/100)/mconst) * Real.sin t := by
      funext t
      have hup2 : Function.update xC5 2 t 2 = t := Function.update_same 2 t xC5
      have hup3 : Function.update xC5 2 t 3 = 0 := by
        rw [Function.update_noteq (by decide) t xC5]
        rfl
      simp [g, Matrix.cons_val_succ, hup2, hup3, show uC5 0 = 1 from rfl,
        show xC5 3 = (0:ℝ) from rfl]
      ring
    rw [hfun]
    have hd := (Real.hasDerivAt_sin 0).const_mul ((-(1/100) : ℝ)/mconst)
    have heq : ((-(1/100) : ℝ)/mconst) * Real.cos 0 = (-(1/92) : ℝ) := by
      norm_num [mconst, Real.cos_zero]
    rw [heq] at hd
    exact hd
  · have hA32 : approx_A (1/100) xC5 uC5 3 2
        = -(uC5 0 * Real.cos (xC5 2) * xC5 5 * (1/100)) / mconst := rfl
    rw [hA32, show xC5 2 = (0:ℝ) from rfl, show xC5 5 = (2:ℝ) from rfl,
      show uC5 0 = (1:ℝ) from rfl, Real.cos_zero]
    norm_num [mconst]
  · rw [show ((-(1/46) : ℝ) - (-(1/92) : ℝ)) = (-(1/92) : ℝ) by norm_num,
      abs_neg, abs_of_pos (by norm_num : (0:ℝ) < 1/92)]
    norm_num

/-- C3: in every executed EKF update step the dynamics Jacobian is evaluated
at the previous estimate (`x_hat[0]` at step 1, the running `old_x`
thereafter) with input `u[i-1]`, and the measurement Jacobian at the freshly
predicted state `g(old_x, u[i-1])`; the cached `self.A`/`self.C` from any
earlier step never influence the result (first conjunct: the update is
invariant under replacing them), both are overwritten with the freshly
evaluated Jacobians (second and third conjuncts), and on normal return
`old_x` is exactly the estimate just appended, so the next step's
linearization point is the previous estimate (fourth conjunct). -/
theorem ekf_jacobians_fresh :
    ∀ (dt : ℝ) (s : EKFState) (i : ℕ) (M : Mat6) (N : Mat26),
      0 < s.x_hat.length → i - 1 < s.u.length →
      (ekfUpdate dt { s with A := M, C := N } i = ekfUpdate dt s i)
      ∧ (ekfUpdate dt s i).state.A
          = approx_A dt (if i = 1 then s.x_hat.headD 0 else s.old_x) (s.u.getD (i-1) 0)
      ∧ (ekfUpdate dt s i).state.C
          = approx_C (g dt (if i = 1 then s.x_hat.headD 0 else s.old_x) (s.u.getD (i-1) 0))
      ∧ (∀ s2, ekfUpdate dt s i = EKFResult.ok s2
          → s2.x_hat = s.x_hat ++ [s2.old_x]) := by
  intro dt s i M N h1 hu
  obtain ⟨u0, hu0⟩ : ∃ u0, s.u.get? (i - 1) = some u0 := ⟨_, List.get?_eq_get hu⟩
  have hgetD : s.u.getD (i - 1) 0 = u0 := by
    rw [List.getD_eq_getD_get?, hu0]
    rfl
  unfold ekfUpdate
  rw [hgetD]
  simp only [if_pos h1, hu0]
  rcases hinv : npLinalgInv (ekfS dt (if i = 1 then s.x_hat.headD 0 else s.old_x) s.P u0)
      with _ | Sinv <;> simp only [hinv]
  · exact ⟨by trivial, by trivial, by trivial, fun s2 hok => EKFResult.noConfusion hok⟩
  · rcases hy : s.y.get? i with _ | yr <;> simp only [hy]
    · exact ⟨by trivial, by trivial, by trivial, fun s2 hok => EKFResult.noConfusion hok⟩
    · rcases hres : hResid (g dt (if i = 1 then s.x_hat.headD 0 else s.old_x) u0) yr
          with _ | innov <;> simp only [hres]
      · exact ⟨by trivial, by trivial, by trivial, fun s2 hok => EKFResult.noConfusion hok⟩
      · rcases hmv : npMatVec
            (ekfPbar dt (if i = 1 then s.x_hat.headD 0 else s.old_x) s.P u0 *
              (approx_C (g dt (if i = 1 then s.x_hat.headD 0 else s.old_x) u0))ᵀ * Sinv)
            innov with _ | kv <;> simp only [hmv]
        · exact ⟨by trivial, by trivial, by trivial, fun s2 hok => EKFResult.noConfusion hok⟩
        · refine ⟨by trivial, by trivial, by trivial, ?_⟩
          intro s2 hok
          injection hok with hrec
          subst hrec
          rfl


/-- Witness for C3: at the concrete state `sC3`, replacing the cached
Jacobians by zero matrices does not change the update's outcome. -/
theorem ekf_jacobians_fresh_check :
    ekfUpdate 1 { sC3 with A := 0, C := 0 } 1 = ekfUpdate 1 sC3 1 :=
  (ekf_jacobians_fresh 1 sC3 1 0 0 (by simp [sC3]) (by simp [sC3])).1



lemma drUpdate_agree (dt : ℝ) {s1 s2 : DRState} (h : drAgree s1 s2) :
    drResAgree (drUpdate dt s1) (drUpdate dt s2) := by
  obtain ⟨ht, hx, hu, hxh, hts, hox⟩ := h
  unfold drUpdate
  rw [hxh, hts, hu, hx, hox]
  split_ifs with hguard hts0
  · cases hget : s2.x.get? 0 with
    | none => exact ⟨ht, hx, hu, hxh, hts, hox⟩
    | some e => exact ⟨ht, rfl, rfl, rfl, rfl, rfl⟩
  · exact ⟨ht, rfl, rfl, rfl, rfl, rfl⟩
  · exact ⟨ht, hx, hu, hxh, hts, hox⟩

lemma drRunAux_agree (dt : ℝ) :
    ∀ (rs1 rs2 : List Record),
      List.Forall₂ (fun r1 r2 => r1.t = r2.t ∧ r1.x = r2.x ∧ r1.u = r2.u) rs1 rs2 →
      ∀ (i : ℕ) (s1 s2 : DRState), drAgree s1 s2 →
        drResAgree (drRunAux dt s1 i rs1) (drRunAux dt s2 i rs2) := by
  intro rs1 rs2 hF
  induction hF with
  | nil =>
    intro i s1 s2 h
    exact h
  | @cons r1 r2 t1 t2 hr hrs ih =>
    intro i s1 s2 h
    obtain ⟨hrt, hrx, hru⟩ := hr
    obtain ⟨ht, hx, hu, hxh, hts, hox⟩ := h
    simp only [drRunAux]
    have hagree' : drAgree (drAppendRecord s1 r1) (drAppendRecord s2 r2) :=
      ⟨by show s1.t ++ [r1.t] = s2.t ++ [r2.t]; rw [ht, hrt],
       by show s1.x ++ [r1.x] = s2.x ++ [r2.x]; rw [hx, hrx],
       by show s1.u ++ [r1.u] = s2.u ++ [r2.u]; rw [hu, hru],
       hxh, hts, hox⟩
    split_ifs with hi0
    · refine ih (i + 1) _ _ ?_
      obtain ⟨ht', hx', hu', hxh', hts', hox'⟩ := hagree'
      refine ⟨ht', hx', hu', ?_, hts', hox'⟩
      show (drAppendRecord s1 r1).x_hat ++ [r1.x]
          = (drAppendRecord s2 r2).x_hat ++ [r2.x]
      rw [hxh', hrx]
    · have hstep := drUpdate_agree dt hagree'
      rcases hu1 : drUpdate dt (drAppendRecord s1 r1) with a1 | a1 <;>
        rcases hu2 : drUpdate dt (drAppendRecord s2 r2) with a2 | a2 <;>
        rw [hu1, hu2] at hstep
      · exact ih (i + 1) a1 a2 hstep
      · exact hstep.elim
      · exact hstep.elim
      · exact hstep

/-- C9: the dead-reckoning estimate sequence is identical across any two
recorded sequences that agree on time stamps, true states and inputs but
differ arbitrarily in the measurement components — the measurements never
influence any dead-reckoning estimate. -/
theorem dr_estimates_independent_of_measurements :
    ∀ (dt : ℝ) (rs1 rs2 : List Record),
      List.Forall₂ (fun r1 r2 => r1.t = r2.t ∧ r1.x = r2.x ∧ r1.u = r2.u) rs1 rs2 →
      (drRun dt rs1).state.x_hat = (drRun dt rs2).state.x_hat := by
  intro dt rs1 rs2 hF
  have h : drResAgree (drRun dt rs1) (drRun dt rs2) :=
    drRunAux_agree dt rs1 rs2 hF 0 drInit drInit ⟨rfl, rfl, rfl, rfl, rfl, rfl⟩
  rcases h1 : drRun dt rs1 with a1 | a1 <;> rcases h2 : drRun dt rs2 with a2 | a2 <;>
    rw [h1, h2] at h
  · exact h.2.2.2.1
  · exact h.elim
  · exact h.elim
  · exact h.2.2.2.1


/-- Witness for C9: two one-record runs whose measurements differ produce the
same estimate sequence. -/
theorem dr_estimates_independent_of_measurements_check :
    (drRun 1 [recZero]).state.x_hat = (drRun 1 [recYdiff]).state.x_hat :=
  dr_estimates_independent_of_measurements 1 [recZero] [recYdiff]
    (List.Forall₂.cons ⟨rfl, rfl, rfl⟩ List.Forall₂.nil)

lemma g_xzSimple_0 (dt : ℝ) : g dt xzSimple 0 0 = 0 := by
  simp [g, Matrix.cons_val_succ, show xzSimple 0 = (0:ℝ) from rfl,
    show xzSimple 3 = (0:ℝ) from rfl]

lemma g_xzSimple_1 (dt : ℝ) : g dt xzSimple 0 1 = 5 := by
  simp [g, Matrix.cons_val_succ, show xzSimple 1 = (5:ℝ) from rfl,
    show xzSimple 4 = (0:ℝ) from rfl]

lemma approx_C_at_xzSimple (dt : ℝ) :
    approx_C (g dt xzSimple 0) = !![0, 0, 0, 0, 0, 0; 0, 0, 1, 0, 0, 0] := by
  ext i j
  fin_cases i <;> fin_cases j <;>
    simp [approx_C, g_xzSimple_0, g_xzSimple_1, lxconst, lzconst, Matrix.cons_val_succ]

lemma ekfPbar_at_zero_P (dt : ℝ) : ekfPbar dt xzSimple 0 0 = Qmat := by
  unfold ekfPbar
  rw [Matrix.mul_zero, Matrix.zero_mul, zero_add]

lemma C0_Q_C0T : (!![0,0,0,0,0,0; 0,0,1,0,0,0] : Mat26) * Qmat
    * (!![0,0,0,0,0,0; 0,0,1,0,0,0] : Mat26)ᵀ = !![0, 0; 0, 1] := by
  ext i j
  fin_cases i <;> fin_cases j <;>
    simp [Qmat, Matrix.mul_apply, Matrix.vecMul_diagonal, Fin.sum_univ_six,
      Matrix.transpose_apply, Matrix.vecHead, Matrix.vecTail, Matrix.cons_val_succ,
      show (![(0:ℝ), 0, 0, 0, 0, 0]) 5 = 0 from rfl,
      show (![(0:ℝ), 0, 1, 0, 0, 0]) 5 = 0 from rfl,
      show (![(1:ℝ), 1, 1, 0.1, 0.1, 0.1]) 5 = 0.1 from rfl]

lemma ekfS_at_xzSimple (dt : ℝ) : ekfS dt xzSimple 0 0 = !![30, 0; 0, 11] := by
  unfold ekfS
  rw [ekfPbar_at_zero_P, approx_C_at_xzSimple, C0_Q_C0T]
  ext i j
  fin_cases i <;> fin_cases j <;>
    norm_num [Rmat, Matrix.add_apply, Matrix.diagonal_apply, Matrix.cons_val_succ]

lemma ekfS_det_ne_at_xzSimple (dt : ℝ) : ¬((ekfS dt xzSimple 0 0).det = 0) := by
  rw [ekfS_at_xzSimple]
  norm_num [Matrix.det_fin_two_of]

lemma hResid_3elt_none (dt : ℝ) : hResid (g dt xzSimple 0) [0, 5, 0] = none := rfl


/-- C1 (code bug): at the concrete state `sC1` the EKF update gets through
prediction, linearization and the gain (the innovation covariance
`!![30, 0; 0, 11]` is invertible), but then raises inside `h` — the stored
3-element measurement `y[1] = [0, 5, 0]` cannot be subtracted from the
2-element predicted measurement — so the step never computes the corrected
estimate: nothing is appended to `x_hat` and the covariance `P` is left
untouched, contradicting the claimed append-and-retain behaviour. -/
theorem ekf_update_raises_and_appends_nothing :
    (ekfUpdate (1/100) sC1 1).isErr = true
    ∧ (ekfUpdate (1/100) sC1 1).state.x_hat = sC1.x_hat
    ∧ (ekfUpdate (1/100) sC1 1).state.P = sC1.P := by
  have hstep : ekfUpdate (1/100) sC1 1
      = EKFResult.err { sC1 with old_x := xzSimple, A := approx_A (1/100) xzSimple 0,
                                 C := approx_C (g (1/100) xzSimple 0) } := by
    unfold ekfUpdate
    simp [sC1, npLinalgInv, ekfS_det_ne_at_xzSimple, hResid_3elt_none]
  rw [hstep]
  exact ⟨rfl, rfl, rfl⟩

lemma conjTranspose_eq_transpose_real {m n : Type*} (M : Matrix m n ℝ) : Mᴴ = Mᵀ := by
  ext i j
  simp [Matrix.conjTranspose_apply]

lemma Qmat_posSemidef : Qmat.PosSemidef := by
  unfold Qmat
  refine Matrix.posSemidef_diagonal_iff.mpr ?_
  intro i
  fin_cases i <;> norm_num

lemma Rmat_posDef : Rmat.PosDef := by
  unfold Rmat
  refine Matrix.posDef_diagonal_iff.mpr ?_
  intro i
  fin_cases i <;> norm_num

lemma P0mat_posSemidef : P0mat.PosSemidef := by
  unfold P0mat
  refine Matrix.posSemidef_diagonal_iff.mpr ?_
  intro i
  fin_cases i <;> norm_num

lemma ekfPbar_posSemidef (dt : ℝ) (x0 : Vec6) (P : Mat6) (u : Vec2)
    (hP : P.PosSemidef) : (ekfPbar dt x0 P u).PosSemidef := by
  unfold ekfPbar
  have h1 := hP.mul_mul_conjTranspose_same (approx_A dt x0 u)
  rw [conjTranspose_eq_transpose_real] at h1
  exact h1.add Qmat_posSemidef

lemma ekfS_posDef (dt : ℝ) (x0 : Vec6) (P : Mat6) (u : Vec2)
    (hP : P.PosSemidef) : (ekfS dt x0 P u).PosDef := by
  unfold ekfS
  have h1 := (ekfPbar_posSemidef dt x0 P u hP).mul_mul_conjTranspose_same
    (approx_C (g dt x0 u))
  rw [conjTranspose_eq_transpose_real] at h1
  exact Matrix.PosDef.posSemidef_add h1 Rmat_posDef

lemma star_pi_real {n : ℕ} (v : Fin n → ℝ) : star v = v := by
  funext i
  simp

/-- The positive-semidefiniteness core of the Kalman covariance update in
exact arithmetic: if `Pb` and `Rm` are positive semidefinite and
`S = C*Pb*Cᵀ + Rm` is invertible, then `Pb - Pb*Cᵀ*S⁻¹*C*Pb` (which is
`(I - K*C)*Pb` for the gain `K = Pb*Cᵀ*S⁻¹`) is again positive
semidefinite. -/
lemma kalman_update_posSemidef {n2 m2 : ℕ}
    (Pb : Matrix (Fin n2) (Fin n2) ℝ) (C : Matrix (Fin m2) (Fin n2) ℝ)
    (Rm : Matrix (Fin m2) (Fin m2) ℝ)
    (hPb : Pb.PosSemidef) (hR : Rm.PosSemidef)
    (hdet : IsUnit (C * Pb * Cᵀ + Rm).det) :
    (Pb - Pb * Cᵀ * (C * Pb * Cᵀ + Rm)⁻¹ * C * Pb).PosSemidef := by
  have hPbT : Pbᵀ = Pb := by
    rw [← conjTranspose_eq_transpose_real]
    exact hPb.1
  have hRT : Rmᵀ = Rm := by
    rw [← conjTranspose_eq_transpose_real]
    exact hR.1
  have hST : (C * Pb * Cᵀ + Rm)ᵀ = C * Pb * Cᵀ + Rm := by
    rw [Matrix.transpose_add, hRT, Matrix.transpose_mul, Matrix.transpose_mul,
      Matrix.transpose_transpose, hPbT, Matrix.mul_assoc]
  have hSinvT : ((C * Pb * Cᵀ + Rm)⁻¹)ᵀ = (C * Pb * Cᵀ + Rm)⁻¹ := by
    rw [Matrix.transpose_nonsing_inv, hST]
  have hdotPb : ∀ (a b : Fin n2 → ℝ), a ⬝ᵥ (Pb *ᵥ b) = (Pb *ᵥ a) ⬝ᵥ b := by
    intro a b
    rw [Matrix.dotProduct_mulVec,
      show a ᵥ* Pb = Pb *ᵥ a by rw [← hPbT, Matrix.vecMul_transpose, hPbT]]
  have hdotCT : ∀ (a : Fin n2 → ℝ) (b : Fin m2 → ℝ),
      a ⬝ᵥ (Cᵀ *ᵥ b) = (C *ᵥ a) ⬝ᵥ b := by
    intro a b
    rw [Matrix.dotProduct_mulVec, Matrix.vecMul_transpose]
  have hwPbw : ∀ z : Fin m2 → ℝ,
      (Cᵀ *ᵥ z) ⬝ᵥ (Pb *ᵥ (Cᵀ *ᵥ z)) = z ⬝ᵥ ((C * Pb * Cᵀ) *ᵥ z) := by
    intro z
    rw [show (C * Pb * Cᵀ) *ᵥ z = C *ᵥ (Pb *ᵥ (Cᵀ *ᵥ z)) by
      simp only [Matrix.mulVec_mulVec, Matrix.mul_assoc],
      Matrix.dotProduct_mulVec z C,
      show z ᵥ* C = Cᵀ *ᵥ z from (Matrix.mulVec_transpose C z).symm]
  constructor
  · -- Hermitian
    show (Pb - Pb * Cᵀ * (C * Pb * Cᵀ + Rm)⁻¹ * C * Pb)ᴴ = _
    have hSinvT2 : ((C * (Pb * Cᵀ) + Rm)⁻¹)ᵀ = (C * (Pb * Cᵀ) + Rm)⁻¹ := by
      rw [← Matrix.mul_assoc]
      exact hSinvT
    rw [conjTranspose_eq_transpose_real, Matrix.transpose_sub, hPbT]
    congr 1
    simp only [Matrix.transpose_mul, Matrix.transpose_transpose, hPbT, hSinvT, hSinvT2,
      Matrix.mul_assoc]
  · -- positive semidefiniteness of the updated covariance
    intro v
    rw [star_pi_real]
    have hp1 : ∀ z : Fin m2 → ℝ,
        (Cᵀ *ᵥ z) ⬝ᵥ (Pb *ᵥ v) = z ⬝ᵥ (C *ᵥ (Pb *ᵥ v)) := by
      intro z
      rw [Matrix.dotProduct_comm, hdotCT, Matrix.dotProduct_comm]
    have hp2 : ∀ z : Fin m2 → ℝ,
        v ⬝ᵥ (Pb *ᵥ (Cᵀ *ᵥ z)) = z ⬝ᵥ (C *ᵥ (Pb *ᵥ v)) := by
      intro z
      rw [hdotPb, hdotCT, Matrix.dotProduct_comm]
    -- the completed-square inequality, for an arbitrary auxiliary vector z
    have key : ∀ z : Fin m2 → ℝ,
        0 ≤ v ⬝ᵥ (Pb *ᵥ v) - 2 * (z ⬝ᵥ (C *ᵥ (Pb *ᵥ v)))
          + z ⬝ᵥ ((C * Pb * Cᵀ) *ᵥ z) := by
      intro z
      have h0 := hPb.2 (v - Cᵀ *ᵥ z)
      rw [star_pi_real] at h0
      have hexp : (v - Cᵀ *ᵥ z) ⬝ᵥ (Pb *ᵥ (v - Cᵀ *ᵥ z))
          = v ⬝ᵥ (Pb *ᵥ v) - 2 * (z ⬝ᵥ (C *ᵥ (Pb *ᵥ v)))
            + z ⬝ᵥ ((C * Pb * Cᵀ) *ᵥ z) := by
        rw [Matrix.mulVec_sub, Matrix.dotProduct_sub, Matrix.sub_dotProduct,
          Matrix.sub_dotProduct, hp1 z, hp2 z, hwPbw z]
        ring
      rw [hexp] at h0
      exact h0
    -- the particular z produced by the gain
    have hSz : (C * Pb * Cᵀ + Rm) *ᵥ
        ((C * Pb * Cᵀ + Rm)⁻¹ *ᵥ (C *ᵥ (Pb *ᵥ v))) = C *ᵥ (Pb *ᵥ v) := by
      rw [Matrix.mulVec_mulVec, Matrix.mul_nonsing_inv _ hdet, Matrix.one_mulVec]
    have hsplitGen : ∀ z : Fin m2 → ℝ, (C * Pb * Cᵀ + Rm) *ᵥ z = C *ᵥ (Pb *ᵥ v) →
        z ⬝ᵥ (C *ᵥ (Pb *ᵥ v)) = z ⬝ᵥ ((C * Pb * Cᵀ) *ᵥ z) + z ⬝ᵥ (Rm *ᵥ z) := by
      intro z hz
      rw [← hz, Matrix.add_mulVec, Matrix.dotProduct_add]
    have hsplit := hsplitGen ((C * Pb * Cᵀ + Rm)⁻¹ *ᵥ (C *ᵥ (Pb *ᵥ v))) hSz
    have hb : 0 ≤ ((C * Pb * Cᵀ + Rm)⁻¹ *ᵥ (C *ᵥ (Pb *ᵥ v)))
        ⬝ᵥ (Rm *ᵥ ((C * Pb * Cᵀ + Rm)⁻¹ *ᵥ (C *ᵥ (Pb *ᵥ v)))) := by
      have hb0 := hR.2 ((C * Pb * Cᵀ + Rm)⁻¹ *ᵥ (C *ᵥ (Pb *ᵥ v)))
      rw [star_pi_real] at hb0
      exact hb0
    -- the goal quadratic form
    have hterm : v ⬝ᵥ ((Pb * Cᵀ * (C * Pb * Cᵀ + Rm)⁻¹ * C * Pb) *ᵥ v)
        = ((C * Pb * Cᵀ + Rm)⁻¹ *ᵥ (C *ᵥ (Pb *ᵥ v))) ⬝ᵥ (C *ᵥ (Pb *ᵥ v)) := by
      rw [show (Pb * Cᵀ * (C * Pb * Cᵀ + Rm)⁻¹ * C * Pb) *ᵥ v
          = Pb *ᵥ (Cᵀ *ᵥ ((C * Pb * Cᵀ + Rm)⁻¹ *ᵥ (C *ᵥ (Pb *ᵥ v)))) by
        simp only [Matrix.mulVec_mulVec, Matrix.mul_assoc],
        hdotPb, hdotCT, Matrix.dotProduct_comm]
    rw [Matrix.sub_mulVec, Matrix.dotProduct_sub, hterm]
    have hkey := key ((C * Pb * Cᵀ + Rm)⁻¹ *ᵥ (C *ᵥ (Pb *ᵥ v)))
    linarith [hkey, hsplit, hb]

/-- C4: in exact real arithmetic the EKF covariance assignment
`P := (I - K*C)*P̄` performed by `update` (with `P̄ = A*P*Aᵀ + Q`,
`S = C*P̄*Cᵀ + R`, `K = P̄*Cᵀ*S⁻¹` and the fixed diagonal `Q`, `R`) maps a
symmetric positive-semidefinite covariance to a symmetric
positive-semidefinite covariance at every step, for every linearization
point and input; moreover `S` is then provably invertible (`det ≠ 0`), so
`np.linalg.inv` cannot raise, and the initial covariance
`diag(5,5,5,1,1,1)` is itself positive semidefinite, so the invariant holds
along any run of updates. -/
theorem ekf_covariance_posSemidef :
    ∀ (dt : ℝ) (x0 : Vec6) (P : Mat6) (u : Vec2), P.PosSemidef →
      P0mat.PosSemidef
      ∧ (ekfS dt x0 P u).det ≠ 0
      ∧ (ekfNewP dt x0 P u)ᵀ = ekfNewP dt x0 P u
      ∧ (ekfNewP dt x0 P u).PosSemidef := by
  intro dt x0 P u hP
  have hSpd := ekfS_posDef dt x0 P u hP
  have hdet0 : (ekfS dt x0 P u).det ≠ 0 := hSpd.det_pos.ne'
  have hdet : IsUnit (approx_C (g dt x0 u) * ekfPbar dt x0 P u
      * (approx_C (g dt x0 u))ᵀ + Rmat).det := by
    rw [show approx_C (g dt x0 u) * ekfPbar dt x0 P u * (approx_C (g dt x0 u))ᵀ
        + Rmat = ekfS dt x0 P u from rfl]
    exact isUnit_iff_ne_zero.mpr hdet0
  have hmain := kalman_update_posSemidef (ekfPbar dt x0 P u)
    (approx_C (g dt x0 u)) Rmat (ekfPbar_posSemidef dt x0 P u hP)
    Rmat_posDef.posSemidef hdet
  have hnewP : ekfNewP dt x0 P u
      = ekfPbar dt x0 P u - ekfPbar dt x0 P u * (approx_C (g dt x0 u))ᵀ
          * (approx_C (g dt x0 u) * ekfPbar dt x0 P u
              * (approx_C (g dt x0 u))ᵀ + Rmat)⁻¹
          * approx_C (g dt x0 u) * ekfPbar dt x0 P u := by
    unfold ekfNewP ekfK
    rw [Matrix.sub_mul, Matrix.one_mul]
    rfl
  rw [hnewP]
  refine ⟨P0mat_posSemidef, hdet0, ?_, hmain⟩
  rw [← conjTranspose_eq_transpose_real]
  exact hmain.1

/-- Witness for C4 at the estimator's own initial covariance
`P0 = diag(5,5,5,1,1,1)`. -/
theorem ekf_covariance_posSemidef_check :
    P0mat.PosSemidef
    ∧ (ekfS 1 0 P0mat 0).det ≠ 0
    ∧ (ekfNewP 1 0 P0mat 0)ᵀ = ekfNewP 1 0 P0mat 0
    ∧ (ekfNewP 1 0 P0mat 0).PosSemidef :=
  ekf_covariance_posSemidef 1 0 P0mat 0
    (Matrix.posSemidef_diagonal_iff.mpr (by intro i; fin_cases i <;> norm_num))

end Claims

end
